import Mathlib

/-!
Verification of `molpal/models/base.py`: the abstract `Model` contract and its
shared batched-inference driver `Model.apply`.

Embedding conventions
- Python is dynamically typed: the streams handed to `apply` may hold either
  individual inputs or batches of inputs (the caller signals pre-batching
  externally).  We embed Python values of the stream with the inductive `Dyn`:
  an `atom` is an individual input, a `seq` is a Python sequence of values.
  This also represents faithfully what happens when a pre-batched stream is
  re-grouped (the driver would then build sequences of sequences).
- Python floats returned by the backends are never computed with by the
  driver, only moved and concatenated, so the prediction output type is an
  arbitrary type parameter `ρ`.
- Backend calls may raise; a raising call is an `Except.error`, mirroring an
  exception propagating out of `apply`.
- `batched_size` and `size` are Python `Optional[int]` used as counts; they
  are embedded as `Option Nat`.  Python truthiness (`if batched_size:`,
  `if size`) is `optTruthy`: `None` and `0` are falsy.
- `tqdm` only displays progress (spec §1: a behaviorally inert observer); it
  is embedded as the identity on the iterable, keeping its `total` argument
  so that the data flow of the display estimate stays visible.
-/

namespace Molpal

/-- A dynamically typed Python value inhabiting the inference streams:
either an individual input (`atom`) or a sequence of values (`seq`). -/
inductive Dyn (α : Type) where
  | atom : α → Dyn α
  | seq : List (Dyn α) → Dyn α

/-- The individual elements of a stream value: a sequence yields its
elements (Python `len`/iteration); an individual input counts as one
element. -/
def Dyn.elems {α : Type} : Dyn α → List (Dyn α)
  | Dyn.atom a => [Dyn.atom a]
  | Dyn.seq l => l

@[simp] theorem Dyn.elems_seq {α : Type} (l : List (Dyn α)) : (Dyn.seq l).elems = l := rfl

@[simp] theorem Dyn.elems_atom {α : Type} (a : α) : (Dyn.atom a).elems = [Dyn.atom a] := rfl

/-- Python truthiness of an `Optional[int]`: `None` and `0` are falsy,
every other number is truthy.  (`base.py` tests `if batched_size:` and
`... if size else None`.) -/
def optTruthy : Option Nat → Bool
  | none => false
  | some n => n != 0

@[simp] theorem optTruthy_none : optTruthy none = false := rfl

@[simp] theorem optTruthy_some (n : Nat) : optTruthy (some n) = (n != 0) := rfl

/-- Fuel-bounded worker for `batches`; the fuel is an upper bound on the
number of elements still to be consumed, so it never runs out when the
chunk size is positive. -/
def batchesAux {α : Type} : Nat → List α → Nat → List (List α)
  | _, [], _ => []
  | 0, _ :: _, _ => []
  | fuel + 1, x :: tl, n => ((x :: tl).take n) :: batchesAux fuel ((x :: tl).drop n) n

/-- Modelled from the spec: `batches` is imported by `base.py` from
`molpal.models.utils`, whose source is not part of this file set.  Spec §4.1
step 4: group the stream into consecutive, non-overlapping batches of the
given size, preserving original order; the final batch may be shorter than
the batch size.  (The spec fixes no behaviour for a zero batch size; the
spec invariant `test_batch_size > 0` keeps that case out of scope.) -/
def batches {α : Type} (xs : List α) (n : Nat) : List (List α) := batchesAux xs.length xs n

@[simp] theorem batchesAux_nil {α : Type} (fuel n : Nat) :
    batchesAux (α := α) fuel [] n = [] := by
  cases fuel <;> rfl

theorem batchesAux_fuel {α : Type} (n : Nat) (hn : n ≠ 0) :
    ∀ fuel₁ fuel₂ (xs : List α), xs.length ≤ fuel₁ → xs.length ≤ fuel₂ →
      batchesAux fuel₁ xs n = batchesAux fuel₂ xs n := by
  intro fuel₁
  induction fuel₁ with
  | zero =>
    intro fuel₂ xs h₁ _
    have hx : xs = [] := List.length_eq_zero.mp (Nat.le_zero.mp h₁)
    subst hx
    simp
  | succ f ih =>
    intro fuel₂ xs h₁ h₂
    cases xs with
    | nil => simp
    | cons x tl =>
      cases fuel₂ with
      | zero => exact absurd (Nat.le_zero.mp h₂) (by simp)
      | succ f₂ =>
        show ((x :: tl).take n) :: batchesAux f ((x :: tl).drop n) n
            = ((x :: tl).take n) :: batchesAux f₂ ((x :: tl).drop n) n
        have hdrop : ((x :: tl).drop n).length ≤ tl.length := by
          have : ((x :: tl).drop n).length = (x :: tl).length - n := List.length_drop n (x :: tl)
          simp only [this, List.length_cons]
          omega
        have hlen : tl.length ≤ f := by simpa using h₁
        have hlen₂ : tl.length ≤ f₂ := by simpa using h₂
        rw [ih _ _ (Nat.le_trans hdrop hlen) (Nat.le_trans hdrop hlen₂)]

@[simp] theorem batches_nil {α : Type} (n : Nat) : batches ([] : List α) n = [] := rfl

theorem batches_cons {α : Type} (n : Nat) (hn : n ≠ 0) (x : α) (tl : List α) :
    batches (x :: tl) n = ((x :: tl).take n) :: batches ((x :: tl).drop n) n := by
  show batchesAux (tl.length + 1) (x :: tl) n = _
  show ((x :: tl).take n) :: batchesAux tl.length ((x :: tl).drop n) n = _
  rw [batchesAux_fuel n hn tl.length ((x :: tl).drop n).length ((x :: tl).drop n)]
  · rfl
  · have : ((x :: tl).drop n).length = (x :: tl).length - n := List.length_drop n (x :: tl)
    simp only [this, List.length_cons]
    omega
  · exact Nat.le_refl _

theorem batches_ne_nil {α : Type} (n : Nat) (hn : n ≠ 0) (xs : List α) (hx : xs ≠ []) :
    batches xs n = (xs.take n) :: batches (xs.drop n) n := by
  cases xs with
  | nil => exact absurd rfl hx
  | cons x tl => exact batches_cons n hn x tl

theorem batches_flatten_bounded {α : Type} (n : Nat) (hn : n ≠ 0) :
    ∀ (N : Nat) (xs : List α), xs.length ≤ N → (batches xs n).flatten = xs := by
  intro N
  induction N with
  | zero =>
    intro xs h
    have hx : xs = [] := List.length_eq_zero.mp (Nat.le_zero.mp h)
    subst hx
    simp
  | succ N ih =>
    intro xs h
    cases xs with
    | nil => simp
    | cons x tl =>
      rw [batches_cons n hn x tl]
      have hdec : ((x :: tl).drop n).length ≤ N := by
        have hd : ((x :: tl).drop n).length = (x :: tl).length - n := List.length_drop n (x :: tl)
        simp only [hd, List.length_cons] at *
        omega
      rw [List.flatten_cons, ih _ hdec, List.take_append_drop]

/-- With a positive batch size, batching is lossless and order-preserving:
concatenating the batches gives back the original list. -/
theorem batches_flatten {α : Type} (n : Nat) (hn : n ≠ 0) (xs : List α) :
    (batches xs n).flatten = xs :=
  batches_flatten_bounded n hn xs.length xs (Nat.le_refl _)

theorem batches_mem_bounded {α : Type} (n : Nat) (hn : n ≠ 0) :
    ∀ (N : Nat) (xs : List α), xs.length ≤ N →
      ∀ b ∈ batches xs n, b ≠ [] ∧ b.length ≤ n := by
  intro N
  induction N with
  | zero =>
    intro xs h
    have hx : xs = [] := List.length_eq_zero.mp (Nat.le_zero.mp h)
    subst hx
    simp
  | succ N ih =>
    intro xs h
    cases xs with
    | nil => simp
    | cons x tl =>
      rw [batches_cons n hn x tl]
      intro b hb
      rcases List.mem_cons.mp hb with hb | hb
      · subst hb
        refine ⟨?_, by simp⟩
        simp [List.take_eq_nil_iff]
        omega
      · have hdec : ((x :: tl).drop n).length ≤ N := by
          have hd : ((x :: tl).drop n).length = (x :: tl).length - n := List.length_drop n (x :: tl)
          simp only [hd, List.length_cons] at *
          omega
        exact ih ((x :: tl).drop n) hdec b hb

/-- Every batch produced with a positive batch size is nonempty and no
longer than the batch size. -/
theorem batches_mem {α : Type} (n : Nat) (hn : n ≠ 0) (xs : List α) :
    ∀ b ∈ batches xs n, b ≠ [] ∧ b.length ≤ n :=
  batches_mem_bounded n hn xs.length xs (Nat.le_refl _)

theorem batches_getElem?_bounded {α : Type} (n : Nat) (hn : n ≠ 0) :
    ∀ (N : Nat) (xs : List α), xs.length ≤ N → ∀ i : Nat, (batches xs n)[i]? =
      if i * n < xs.length then some ((xs.drop (i * n)).take n) else none := by
  intro N
  induction N with
  | zero =>
    intro xs h
    have hx : xs = [] := List.length_eq_zero.mp (Nat.le_zero.mp h)
    subst hx
    simp
  | succ N ih =>
    intro xs h i
    cases xs with
    | nil => simp
    | cons x tl =>
      rw [batches_cons n hn x tl]
      cases i with
      | zero => simp
      | succ j =>
        have hdec : ((x :: tl).drop n).length ≤ N := by
          have hd : ((x :: tl).drop n).length = (x :: tl).length - n := List.length_drop n (x :: tl)
          simp only [hd, List.length_cons] at *
          omega
        have hrec := ih ((x :: tl).drop n) hdec j
        have hdrop : ((x :: tl).drop n).drop (j * n) = (x :: tl).drop ((j + 1) * n) := by
          rw [List.drop_drop]
          congr 1
          ring
        have hlen : ((x :: tl).drop n).length = (x :: tl).length - n := List.length_drop n (x :: tl)
        have hmul : (j + 1) * n = j * n + n := by ring
        simp only [List.getElem?_cons_succ, hrec, hdrop, hlen]
        by_cases hcase : (j + 1) * n < (x :: tl).length
        · have hj : j * n < (x :: tl).length - n := by
            simp only [List.length_cons] at *
            omega
          simp only [List.length_cons] at hcase hj
          simp [hcase, hj]
        · have hj : ¬ j * n < (x :: tl).length - n := by
            simp only [List.length_cons] at *
            omega
          simp only [List.length_cons] at hcase hj
          simp [hcase, hj]

/-- Full characterisation of the batches: the i-th batch is the slice of
`n` consecutive elements starting at offset `i * n` (the final one possibly
shorter), and there is no i-th batch once `i * n` runs past the end. -/
theorem batches_getElem? {α : Type} (n : Nat) (hn : n ≠ 0) (xs : List α) (i : Nat) :
    (batches xs n)[i]? =
      if i * n < xs.length then some ((xs.drop (i * n)).take n) else none :=
  batches_getElem?_bounded n hn xs.length xs (Nat.le_refl _) i

/-- The abstract Model contract (`base.py`, class `Model`).  The abstract
members a concrete subclass must provide are fields: `type_` (the
architecture tag, e.g. `"mpn"`), `get_means` and `get_means_and_vars` (the
backend prediction calls, which receive one dynamically typed batch and
either return their predictions or raise).  `test_batch_size` is the
instance attribute set by `Model.__init__`.  `provides` and `train` are
interface pass-throughs never used by `apply` and are not needed here.
`ε` is the type of backend errors and `ρ` the type of predicted values
(Python floats, never computed with by the driver). -/
structure Model (ε α ρ : Type) where
  type_ : String
  test_batch_size : Nat
  get_means : Dyn α → Except ε (List ρ)
  get_means_and_vars : Dyn α → Except ε (List ρ × List ρ)

/-- `Model.__init__` (`base.py` lines 48-49): stores `test_batch_size` on
the instance, unvalidated.  The abstract members come from the concrete
subclass. -/
def Model.init {ε α ρ : Type} (type_ : String) (get_means : Dyn α → Except ε (List ρ))
    (get_means_and_vars : Dyn α → Except ε (List ρ × List ρ))
    (test_batch_size : Nat) : Model ε α ρ :=
  { type_ := type_, test_batch_size := test_batch_size,
    get_means := get_means, get_means_and_vars := get_means_and_vars }

/-- `tqdm(xs, total=n_batches, ...)` (`base.py` lines 137, 142): a progress
bar wrapping the iterable.  Per spec §1/§6 the progress display is a
behaviorally inert observer, so it is embedded as the identity on the
iterable; the `total` argument (the display estimate) is kept so that its
data flow stays visible. -/
def tqdm {β : Type} (xs : List β) (_total : Option Nat) : List β := xs

/-- `base.py` lines 127-130: the batch-count estimate handed to `tqdm` as
its display total.  `n_batches = (size//batched_size) + 1 if size else
None` when `batched_size` is truthy, else `(size//self.test_batch_size) +
1 if size else None`.  `batched_size` here is the value after the mpn
override of line 123. -/
def Model.n_batches {ε α ρ : Type} (m : Model ε α ρ) (batched_size size : Option Nat) :
    Option Nat :=
  if optTruthy batched_size then
    if optTruthy size then some (size.getD 0 / batched_size.getD 0 + 1) else none
  else
    if optTruthy size then some (size.getD 0 / m.test_batch_size + 1) else none

/-- `base.py` lines 120-125: the mpn override.  MPNs predict directly on
the input identifiers: `xs = x_ids; batched_size = None`, otherwise
`xs = x_feats`.  Composed with lines 127-130 this is the estimate `apply`
passes to `tqdm`. -/
def Model.applyProgressTotal {ε α ρ : Type} (m : Model ε α ρ)
    (batched_size size : Option Nat) : Option Nat :=
  m.n_batches (if m.type_ = "mpn" then none else batched_size) size

/-- `base.py` lines 120-131: stream selection and (re-)batching.  If
`type_ == 'mpn'`, the identifier stream is used and the pre-batching hint
dropped (lines 120-123); otherwise the feature stream is used (line 125).
If the (possibly overridden) `batched_size` is truthy the stream is used
as the batch stream as-is (line 127); otherwise it is grouped by
`batches(xs, self.test_batch_size)` (line 131), each group being a Python
list, i.e. a `Dyn.seq`. -/
def Model.selectedBatches {ε α ρ : Type} (m : Model ε α ρ) (x_ids x_feats : List (Dyn α))
    (batched_size : Option Nat) : List (Dyn α) :=
  let xs := if m.type_ = "mpn" then x_ids else x_feats
  let batched_size' := if m.type_ = "mpn" then none else batched_size
  if optTruthy batched_size' then xs
  else (batches xs m.test_batch_size).map Dyn.seq

/-- `base.py` lines 136-140: `for batch_xs in tqdm(xs, ...):
batch_means = self.get_means(batch_xs); means.extend(batch_means)`.
The first component records which batches were passed to `get_means`
before the loop finished or a call raised; the second is the accumulated
result, or the propagated error of the first raising call (which aborts
the loop). -/
def Model.meansLoop {ε α ρ : Type} (m : Model ε α ρ) :
    List (Dyn α) → List (Dyn α) × Except ε (List ρ)
  | [] => ([], Except.ok [])
  | b :: bs =>
    match m.get_means b with
    | Except.error e => ([b], Except.error e)
    | Except.ok batch_means =>
      match m.meansLoop bs with
      | (tr, Except.error e) => (b :: tr, Except.error e)
      | (tr, Except.ok rest) => (b :: tr, Except.ok (batch_means ++ rest))

/-- `base.py` lines 141-146: the `mean_only=False` loop, accumulating both
means and variances via `get_means_and_vars`. -/
def Model.meansVarsLoop {ε α ρ : Type} (m : Model ε α ρ) :
    List (Dyn α) → List (Dyn α) × Except ε (List ρ × List ρ)
  | [] => ([], Except.ok ([], []))
  | b :: bs =>
    match m.get_means_and_vars b with
    | Except.error e => ([b], Except.error e)
    | Except.ok (batch_means, batch_vars) =>
      match m.meansVarsLoop bs with
      | (tr, Except.error e) => (b :: tr, Except.error e)
      | (tr, Except.ok (ms, vs)) => (b :: tr, Except.ok (batch_means ++ ms, batch_vars ++ vs))

/-- `Model.apply` (`base.py` lines 92-148): the batched-inference driver.
Selects the stream and batches it (`selectedBatches`, lines 120-131),
wraps it in `tqdm` with the display estimate (`applyProgressTotal`, lines
127-130, 137, 142), then folds the chosen prediction call over the batch
stream (lines 133-146) and returns `(means, variances)` (line 148),
`variances` remaining `[]` when `mean_only` is true.  A raising backend
call makes `apply` itself raise: the `Except.error` is returned and no
pair of lists is produced. -/
def Model.apply {ε α ρ : Type} (m : Model ε α ρ) (x_ids x_feats : List (Dyn α))
    (batched_size size : Option Nat) (mean_only : Bool) :
    Except ε (List ρ × List ρ) :=
  let xss := tqdm (m.selectedBatches x_ids x_feats batched_size)
    (m.applyProgressTotal batched_size size)
  if mean_only then
    match (m.meansLoop xss).2 with
    | Except.error e => Except.error e
    | Except.ok means => Except.ok (means, [])
  else
    match (m.meansVarsLoop xss).2 with
    | Except.error e => Except.error e
    | Except.ok (means, variances) => Except.ok (means, variances)

/-- The trace of prediction calls `apply` makes: the batches passed to
`get_means` (resp. `get_means_and_vars`), in order, up to and including
the first raising call. -/
def Model.applyCalls {ε α ρ : Type} (m : Model ε α ρ) (x_ids x_feats : List (Dyn α))
    (batched_size size : Option Nat) (mean_only : Bool) : List (Dyn α) :=
  let xss := tqdm (m.selectedBatches x_ids x_feats batched_size)
    (m.applyProgressTotal batched_size size)
  if mean_only then (m.meansLoop xss).1 else (m.meansVarsLoop xss).1

/-- The individual inputs of the stream `apply` consumes: the identifiers
for an mpn model; otherwise the feature stream, whose elements are the
individual inputs when it is not pre-batched and whose elements' elements
are the individual inputs when it is. -/
def Model.streamInputs {ε α ρ : Type} (m : Model ε α ρ) (x_ids x_feats : List (Dyn α))
    (batched_size : Option Nat) : List (Dyn α) :=
  if m.type_ = "mpn" then x_ids
  else if optTruthy batched_size then (x_feats.map Dyn.elems).flatten
  else x_feats

/-- If every batch of the stream succeeds with the predictions `f b`, the
mean-only loop visits every batch and returns their outputs concatenated
in batch order. -/
theorem meansLoop_ok {ε α ρ : Type} (m : Model ε α ρ) (f : Dyn α → List ρ) :
    ∀ xss : List (Dyn α), (∀ b ∈ xss, m.get_means b = Except.ok (f b)) →
      m.meansLoop xss = (xss, Except.ok ((xss.map f).flatten)) := by
  intro xss
  induction xss with
  | nil => intro _; rfl
  | cons b bs ih =>
    intro h
    have hb : m.get_means b = Except.ok (f b) := h b (List.mem_cons_self b bs)
    have hrest := ih (fun b' hb' => h b' (List.mem_cons_of_mem b hb'))
    simp [Model.meansLoop, hb, hrest]

/-- If every batch of the stream succeeds with means `f b` and variances
`g b`, the mean-and-variance loop visits every batch and returns both
outputs concatenated in batch order. -/
theorem meansVarsLoop_ok {ε α ρ : Type} (m : Model ε α ρ) (f g : Dyn α → List ρ) :
    ∀ xss : List (Dyn α), (∀ b ∈ xss, m.get_means_and_vars b = Except.ok (f b, g b)) →
      m.meansVarsLoop xss = (xss, Except.ok ((xss.map f).flatten, (xss.map g).flatten)) := by
  intro xss
  induction xss with
  | nil => intro _; rfl
  | cons b bs ih =>
    intro h
    have hb : m.get_means_and_vars b = Except.ok (f b, g b) := h b (List.mem_cons_self b bs)
    have hrest := ih (fun b' hb' => h b' (List.mem_cons_of_mem b hb'))
    simp [Model.meansVarsLoop, hb, hrest]

/-- If the batches before `b` all succeed and the call on `b` raises `e`,
the mean-only loop stops at `b`: the calls made are exactly the earlier
batches followed by `b`, and the loop's result is the error `e`. -/
theorem meansLoop_error {ε α ρ : Type} (m : Model ε α ρ) (e : ε) (b : Dyn α) :
    ∀ pre post : List (Dyn α), (∀ b' ∈ pre, ∃ r, m.get_means b' = Except.ok r) →
      m.get_means b = Except.error e →
      m.meansLoop (pre ++ b :: post) = (pre ++ [b], Except.error e) := by
  intro pre
  induction pre with
  | nil =>
    intro post _ hb
    simp [Model.meansLoop, hb]
  | cons p ps ih =>
    intro post hpre hb
    obtain ⟨r, hr⟩ := hpre p (List.mem_cons_self p ps)
    have hrest := ih post (fun b' hb' => hpre b' (List.mem_cons_of_mem p hb')) hb
    simp [Model.meansLoop, hr, hrest]

/-- The analogue of `meansLoop_error` for the mean-and-variance loop. -/
theorem meansVarsLoop_error {ε α ρ : Type} (m : Model ε α ρ) (e : ε) (b : Dyn α) :
    ∀ pre post : List (Dyn α),
      (∀ b' ∈ pre, ∃ r, m.get_means_and_vars b' = Except.ok r) →
      m.get_means_and_vars b = Except.error e →
      m.meansVarsLoop (pre ++ b :: post) = (pre ++ [b], Except.error e) := by
  intro pre
  induction pre with
  | nil =>
    intro post _ hb
    simp [Model.meansVarsLoop, hb]
  | cons p ps ih =>
    intro post hpre hb
    obtain ⟨r, hr⟩ := hpre p (List.mem_cons_self p ps)
    have hrest := ih post (fun b' hb' => hpre b' (List.mem_cons_of_mem p hb')) hb
    simp [Model.meansVarsLoop, hr, hrest]

/-- If every batch of the stream succeeds, the mean-only loop's call trace
is the whole stream. -/
theorem meansLoop_trace {ε α ρ : Type} (m : Model ε α ρ) :
    ∀ xss : List (Dyn α), (∀ b ∈ xss, ∃ r, m.get_means b = Except.ok r) →
      (m.meansLoop xss).1 = xss := by
  intro xss
  induction xss with
  | nil => intro _; rfl
  | cons b bs ih =>
    intro h
    obtain ⟨r, hr⟩ := h b (List.mem_cons_self b bs)
    have hrest := ih (fun b' hb' => h b' (List.mem_cons_of_mem b hb'))
    rcases hm : m.meansLoop bs with ⟨tr, res⟩
    rw [hm] at hrest
    cases res with
    | error e => simp [Model.meansLoop, hr, hm] at hrest ⊢; exact hrest
    | ok rest => simp [Model.meansLoop, hr, hm] at hrest ⊢; exact hrest

/-- If every batch of the stream succeeds, the mean-and-variance loop's
call trace is the whole stream. -/
theorem meansVarsLoop_trace {ε α ρ : Type} (m : Model ε α ρ) :
    ∀ xss : List (Dyn α), (∀ b ∈ xss, ∃ r, m.get_means_and_vars b = Except.ok r) →
      (m.meansVarsLoop xss).1 = xss := by
  intro xss
  induction xss with
  | nil => intro _; rfl
  | cons b bs ih =>
    intro h
    obtain ⟨r, hr⟩ := h b (List.mem_cons_self b bs)
    have hrest := ih (fun b' hb' => h b' (List.mem_cons_of_mem b hb'))
    rcases hm : m.meansVarsLoop bs with ⟨tr, res⟩
    rw [hm] at hrest
    rcases r with ⟨rm, rv⟩
    cases res with
    | error e => simp [Model.meansVarsLoop, hr, hm] at hrest ⊢; exact hrest
    | ok rest =>
      rcases rest with ⟨ms, vs⟩
      simp [Model.meansVarsLoop, hr, hm] at hrest ⊢; exact hrest

/-- For an mpn model the driver iterates the identifier stream grouped by
`test_batch_size`, whatever the feature stream and hint were. -/
theorem selectedBatches_mpn {ε α ρ : Type} (m : Model ε α ρ) (h : m.type_ = "mpn")
    (x_ids x_feats : List (Dyn α)) (batched_size : Option Nat) :
    m.selectedBatches x_ids x_feats batched_size =
      (batches x_ids m.test_batch_size).map Dyn.seq := by
  simp [Model.selectedBatches, h]

/-- For a non-mpn model with a truthy hint the driver iterates the feature
stream exactly as supplied. -/
theorem selectedBatches_prebatched {ε α ρ : Type} (m : Model ε α ρ) (h : ¬ m.type_ = "mpn")
    (x_ids x_feats : List (Dyn α)) (batched_size : Option Nat)
    (hb : optTruthy batched_size = true) :
    m.selectedBatches x_ids x_feats batched_size = x_feats := by
  simp [Model.selectedBatches, h, hb]

/-- For a non-mpn model with a falsy hint the driver iterates the feature
stream grouped by `test_batch_size`. -/
theorem selectedBatches_unbatched {ε α ρ : Type} (m : Model ε α ρ) (h : ¬ m.type_ = "mpn")
    (x_ids x_feats : List (Dyn α)) (batched_size : Option Nat)
    (hb : optTruthy batched_size = false) :
    m.selectedBatches x_ids x_feats batched_size =
      (batches x_feats m.test_batch_size).map Dyn.seq := by
  simp [Model.selectedBatches, h, hb]

/-- The elements of the iterated batches are exactly the individual inputs
of the consumed stream, in order (for the pre-batched path this is
definitional; for the re-batched paths it is the losslessness of
`batches`). -/
theorem selectedBatches_elems_flatten {ε α ρ : Type} (m : Model ε α ρ)
    (x_ids x_feats : List (Dyn α)) (batched_size : Option Nat)
    (htbs : m.test_batch_size ≠ 0) :
    ((m.selectedBatches x_ids x_feats batched_size).map Dyn.elems).flatten =
      m.streamInputs x_ids x_feats batched_size := by
  by_cases hm : m.type_ = "mpn"
  · rw [selectedBatches_mpn m hm, Model.streamInputs, if_pos hm, List.map_map]
    have : Dyn.elems (α := α) ∘ Dyn.seq = id := by
      funext l
      rfl
    rw [this, List.map_id]
    exact batches_flatten _ htbs x_ids
  · by_cases hb : optTruthy batched_size = true
    · rw [selectedBatches_prebatched m hm x_ids x_feats batched_size hb,
        Model.streamInputs, if_neg hm, if_pos (by simp [hb])]
    · have hb' : optTruthy batched_size = false := by
        cases hx : optTruthy batched_size
        · rfl
        · exact absurd hx hb
      rw [selectedBatches_unbatched m hm x_ids x_feats batched_size hb',
        Model.streamInputs, if_neg hm, if_neg (by simp [hb']), List.map_map]
      have : Dyn.elems (α := α) ∘ Dyn.seq = id := by
        funext l
        rfl
      rw [this, List.map_id]
      exact batches_flatten _ htbs x_feats

/-- Summing per-batch output lengths: when each batch's output is as long
as the batch, the concatenated outputs are as long as the concatenated
batch contents. -/
theorem flatten_length_congr {α ρ : Type} (F : List (Dyn α) → List ρ) :
    ∀ xss : List (Dyn α), (∀ b ∈ xss, (F b.elems).length = b.elems.length) →
      ((xss.map (fun b => F b.elems)).flatten).length =
        ((xss.map Dyn.elems).flatten).length := by
  intro xss
  induction xss with
  | nil => intro _; rfl
  | cons b bs ih =>
    intro h
    simp only [List.map_cons, List.flatten_cons, List.length_append]
    rw [h b (List.mem_cons_self b bs), ih (fun b' hb' => h b' (List.mem_cons_of_mem b hb'))]

/-- Under the hypotheses of claims C1/C2 every batch the driver iterates
is accepted by a backend that answers `F` on sequences. -/
theorem selectedBatches_all_seq {ε α ρ : Type} (m : Model ε α ρ)
    (x_ids x_feats : List (Dyn α)) (batched_size : Option Nat)
    (hcoh : ¬ m.type_ = "mpn" → optTruthy batched_size = true →
      ∀ d ∈ x_feats, ∃ l, d = Dyn.seq l) :
    ∀ b ∈ m.selectedBatches x_ids x_feats batched_size, ∃ l, b = Dyn.seq l := by
  intro b hb
  by_cases hm : m.type_ = "mpn"
  · rw [selectedBatches_mpn m hm] at hb
    obtain ⟨c, _, rfl⟩ := List.mem_map.mp hb
    exact ⟨c, rfl⟩
  · by_cases hbt : optTruthy batched_size = true
    · rw [selectedBatches_prebatched m hm x_ids x_feats batched_size hbt] at hb
      exact hcoh hm hbt b hb
    · have hb' : optTruthy batched_size = false := by
        cases hx : optTruthy batched_size
        · rfl
        · exact absurd hx hbt
      rw [selectedBatches_unbatched m hm x_ids x_feats batched_size hb'] at hb
      obtain ⟨c, _, rfl⟩ := List.mem_map.mp hb
      exact ⟨c, rfl⟩

/-- C1: for every finite input stream of N individual inputs and every
backend whose `get_means` returns one mean per input (`F`, length
preserving), `apply` with `mean_only=true` returns the per-batch means
concatenated in batch order — hence in the original input order — as
`means`, an empty `variances`, and `means` has exactly length N, the
number of individual inputs of the consumed stream.  (The coherence
hypothesis states what a truthy `batched_size` asserts per the spec: the
feature stream then yields batches, i.e. sequences.) -/
theorem apply_mean_only_returns_all_means {ε α ρ : Type} (m : Model ε α ρ)
    (x_ids x_feats : List (Dyn α)) (batched_size size : Option Nat)
    (F : List (Dyn α) → List ρ)
    (htbs : m.test_batch_size ≠ 0)
    (hGM : ∀ l : List (Dyn α),
      m.get_means (Dyn.seq l) = Except.ok (F l) ∧ (F l).length = l.length)
    (hcoh : ¬ m.type_ = "mpn" → optTruthy batched_size = true →
      ∀ d ∈ x_feats, ∃ l, d = Dyn.seq l) :
    m.apply x_ids x_feats batched_size size true =
      Except.ok
        (((m.selectedBatches x_ids x_feats batched_size).map (fun b => F b.elems)).flatten,
          ([] : List ρ)) ∧
    (((m.selectedBatches x_ids x_feats batched_size).map (fun b => F b.elems)).flatten).length =
      (m.streamInputs x_ids x_feats batched_size).length := by
  have hall : ∀ b ∈ m.selectedBatches x_ids x_feats batched_size,
      m.get_means b = Except.ok (F b.elems) := by
    intro b hb
    obtain ⟨l, rfl⟩ := selectedBatches_all_seq m x_ids x_feats batched_size hcoh b hb
    simpa using (hGM l).1
  constructor
  · rw [Model.apply]
    simp only [tqdm]
    rw [meansLoop_ok m (fun b => F b.elems) _ hall]
    simp
  · rw [flatten_length_congr F _ (fun b _ => (hGM b.elems).2),
      selectedBatches_elems_flatten m x_ids x_feats batched_size htbs]

/-- C2: for every finite input stream of N individual inputs and every
backend whose `get_means_and_vars` returns one mean and one variance per
input (`F` and `G`, length preserving), `apply` with `mean_only=false`
returns means and variances both of exactly length N, index-aligned: both
are the per-batch outputs concatenated in the same batch order. -/
theorem apply_mean_and_vars_returns_aligned {ε α ρ : Type} (m : Model ε α ρ)
    (x_ids x_feats : List (Dyn α)) (batched_size size : Option Nat)
    (F G : List (Dyn α) → List ρ)
    (htbs : m.test_batch_size ≠ 0)
    (hGMV : ∀ l : List (Dyn α),
      m.get_means_and_vars (Dyn.seq l) = Except.ok (F l, G l) ∧
      (F l).length = l.length ∧ (G l).length = l.length)
    (hcoh : ¬ m.type_ = "mpn" → optTruthy batched_size = true →
      ∀ d ∈ x_feats, ∃ l, d = Dyn.seq l) :
    m.apply x_ids x_feats batched_size size false =
      Except.ok
        (((m.selectedBatches x_ids x_feats batched_size).map (fun b => F b.elems)).flatten,
          ((m.selectedBatches x_ids x_feats batched_size).map (fun b => G b.elems)).flatten) ∧
    (((m.selectedBatches x_ids x_feats batched_size).map (fun b => F b.elems)).flatten).length =
      (m.streamInputs x_ids x_feats batched_size).length ∧
    (((m.selectedBatches x_ids x_feats batched_size).map (fun b => G b.elems)).flatten).length =
      (m.streamInputs x_ids x_feats batched_size).length := by
  have hall : ∀ b ∈ m.selectedBatches x_ids x_feats batched_size,
      m.get_means_and_vars b = Except.ok (F b.elems, G b.elems) := by
    intro b hb
    obtain ⟨l, rfl⟩ := selectedBatches_all_seq m x_ids x_feats batched_size hcoh b hb
    simpa using (hGMV l).1
  refine ⟨?_, ?_, ?_⟩
  · rw [Model.apply]
    simp only [tqdm]
    rw [meansVarsLoop_ok m (fun b => F b.elems) (fun b => G b.elems) _ hall]
    simp
  · rw [flatten_length_congr F _ (fun b _ => (hGMV b.elems).2.1),
      selectedBatches_elems_flatten m x_ids x_feats batched_size htbs]
  · rw [flatten_length_congr G _ (fun b _ => (hGMV b.elems).2.2),
      selectedBatches_elems_flatten m x_ids x_feats batched_size htbs]

/-- A concrete non-mpn backend for the witnesses: every prediction
succeeds; each individual input gets mean 0 and variance 1. -/
def nnModel : Model Unit Nat Nat :=
  Model.init "nn" (fun d => Except.ok (d.elems.map (fun _ => 0)))
    (fun d => Except.ok (d.elems.map (fun _ => 0), d.elems.map (fun _ => 1))) 2

/-- A concrete un-pre-batched stream of three individual inputs. -/
def demoSingles : List (Dyn Nat) := [Dyn.atom 0, Dyn.atom 1, Dyn.atom 2]

/-- The per-batch means of `nnModel`, as a function of the batch. -/
def demoF : List (Dyn Nat) → List Nat := fun l => l.map (fun _ => 0)

/-- The per-batch variances of `nnModel`, as a function of the batch. -/
def demoG : List (Dyn Nat) → List Nat := fun l => l.map (fun _ => 1)

/-- Witness for C1: the concrete `nnModel` on a three-input stream. -/
theorem apply_mean_only_returns_all_means_witness :
    nnModel.test_batch_size ≠ 0 ∧
    (nnModel.apply [] demoSingles none none true =
      Except.ok
        (((nnModel.selectedBatches [] demoSingles none).map (fun b => demoF b.elems)).flatten,
          ([] : List Nat)) ∧
    (((nnModel.selectedBatches [] demoSingles none).map (fun b => demoF b.elems)).flatten).length =
      (nnModel.streamInputs [] demoSingles none).length) :=
  ⟨by decide,
    apply_mean_only_returns_all_means nnModel [] demoSingles none none demoF
      (by decide) (fun l => ⟨rfl, by simp [demoF]⟩) (fun _ h => by simp at h)⟩

/-- Witness for C2: the concrete `nnModel` on a three-input stream. -/
theorem apply_mean_and_vars_returns_aligned_witness :
    nnModel.test_batch_size ≠ 0 ∧
    (nnModel.apply [] demoSingles none none false =
      Except.ok
        (((nnModel.selectedBatches [] demoSingles none).map (fun b => demoF b.elems)).flatten,
          ((nnModel.selectedBatches [] demoSingles none).map (fun b => demoG b.elems)).flatten) ∧
    (((nnModel.selectedBatches [] demoSingles none).map (fun b => demoF b.elems)).flatten).length =
      (nnModel.streamInputs [] demoSingles none).length ∧
    (((nnModel.selectedBatches [] demoSingles none).map (fun b => demoG b.elems)).flatten).length =
      (nnModel.streamInputs [] demoSingles none).length) :=
  ⟨by decide,
    apply_mean_and_vars_returns_aligned nnModel [] demoSingles none none demoF demoG
      (by decide) (fun l => ⟨rfl, by simp [demoF], by simp [demoG]⟩) (fun _ h => by simp at h)⟩

/-- C3: for an mpn (direct-identifier) model, `apply` consumes the
identifier stream grouped into consecutive batches of `test_batch_size`
(the i-th iterated batch is the slice at offset `i * test_batch_size`),
and neither the result nor the sequence of prediction calls depends on the
feature stream or on any caller-supplied `batched_size` hint. -/
theorem apply_mpn_consumes_identifiers {ε α ρ : Type} (m : Model ε α ρ)
    (x_ids x_feats x_feats' : List (Dyn α)) (batched_size batched_size' size : Option Nat)
    (mean_only : Bool) (h : m.type_ = "mpn") :
    m.selectedBatches x_ids x_feats batched_size =
      (batches x_ids m.test_batch_size).map Dyn.seq ∧
    (∀ i : Nat, m.test_batch_size ≠ 0 → (batches x_ids m.test_batch_size)[i]? =
      (if i * m.test_batch_size < x_ids.length then
        some ((x_ids.drop (i * m.test_batch_size)).take m.test_batch_size) else none)) ∧
    m.apply x_ids x_feats batched_size size mean_only =
      m.apply x_ids x_feats' batched_size' size mean_only ∧
    m.applyCalls x_ids x_feats batched_size size mean_only =
      m.applyCalls x_ids x_feats' batched_size' size mean_only := by
  refine ⟨selectedBatches_mpn m h x_ids x_feats batched_size,
    fun i hn => batches_getElem? _ hn x_ids i, ?_, ?_⟩
  · rw [Model.apply, Model.apply]
    simp only [tqdm]
    rw [selectedBatches_mpn m h x_ids x_feats batched_size,
      selectedBatches_mpn m h x_ids x_feats' batched_size']
  · rw [Model.applyCalls, Model.applyCalls]
    simp only [tqdm]
    rw [selectedBatches_mpn m h x_ids x_feats batched_size,
      selectedBatches_mpn m h x_ids x_feats' batched_size']

/-- A concrete mpn backend for the witnesses: predictions always succeed. -/
def mpnModel : Model Unit Nat Nat :=
  Model.init "mpn" (fun d => Except.ok (d.elems.map (fun _ => 0)))
    (fun d => Except.ok (d.elems.map (fun _ => 0), d.elems.map (fun _ => 1))) 2

/-- Witness for C3: the concrete `mpnModel` with two different feature
streams and hints. -/
theorem apply_mpn_consumes_identifiers_witness :
    mpnModel.type_ = "mpn" ∧
    (mpnModel.selectedBatches demoSingles [Dyn.atom 9] (some 5) =
      (batches demoSingles mpnModel.test_batch_size).map Dyn.seq ∧
    (∀ i : Nat, mpnModel.test_batch_size ≠ 0 →
      (batches demoSingles mpnModel.test_batch_size)[i]? =
      (if i * mpnModel.test_batch_size < demoSingles.length then
        some ((demoSingles.drop (i * mpnModel.test_batch_size)).take mpnModel.test_batch_size)
        else none)) ∧
    mpnModel.apply demoSingles [Dyn.atom 9] (some 5) none true =
      mpnModel.apply demoSingles [] none none true ∧
    mpnModel.applyCalls demoSingles [Dyn.atom 9] (some 5) none true =
      mpnModel.applyCalls demoSingles [] none none true) :=
  ⟨rfl, apply_mpn_consumes_identifiers mpnModel demoSingles [Dyn.atom 9] [] (some 5) none none
    true rfl⟩

/-- A concrete pre-batched feature stream: two batches of one input each. -/
def demoPrebatched : List (Dyn Nat) := [Dyn.seq [Dyn.atom 0], Dyn.seq [Dyn.atom 1]]

/-- Counterexample to C4 as stated: with `batched_size` *set* but equal to
0 the driver does re-slice.  `nnModel` has `test_batch_size = 2`; on a
pre-batched stream of two one-element batches with `batched_size = some 0`
the driver regroups the two stream elements into a single batch, so it
makes one prediction call instead of one call per stream element, and the
batch boundaries are not preserved. -/
theorem apply_prebatched_set_to_zero_resliced_cex :
    ¬ nnModel.type_ = "mpn" ∧
    (some 0 : Option Nat) ≠ none ∧
    nnModel.selectedBatches [] demoPrebatched (some 0) ≠ demoPrebatched ∧
    (nnModel.selectedBatches [] demoPrebatched (some 0)).length = 1 ∧
    (nnModel.applyCalls [] demoPrebatched (some 0) none true).length = 1 ∧
    demoPrebatched.length = 2 := by
  refine ⟨by simp [nnModel, Model.init], by simp, ?_, by decide, by decide, by decide⟩
  intro hcontra
  exact absurd (congrArg List.length hcontra) (by decide)

/-- C4, amended: for a non-mpn model, if `batched_size` is set to a
*nonzero* value (Python-truthy, matching the driver's `if batched_size:`
test) then `apply` iterates the feature stream exactly as supplied — the
stream itself is the batch stream, so batch boundaries are preserved and,
as long as the backend keeps succeeding, there is exactly one prediction
call per stream element, in order. -/
theorem apply_prebatched_no_reslicing {ε α ρ : Type} (m : Model ε α ρ)
    (x_ids x_feats : List (Dyn α)) (batched_size size : Option Nat)
    (h : ¬ m.type_ = "mpn") (hb : optTruthy batched_size = true) :
    m.selectedBatches x_ids x_feats batched_size = x_feats ∧
    ((∀ b ∈ x_feats, ∃ r, m.get_means b = Except.ok r) →
      m.applyCalls x_ids x_feats batched_size size true = x_feats) ∧
    ((∀ b ∈ x_feats, ∃ r, m.get_means_and_vars b = Except.ok r) →
      m.applyCalls x_ids x_feats batched_size size false = x_feats) := by
  have hsel := selectedBatches_prebatched m h x_ids x_feats batched_size hb
  refine ⟨hsel, ?_, ?_⟩
  · intro hall
    rw [Model.applyCalls]
    simp only [tqdm, hsel, if_pos]
    exact meansLoop_trace m x_feats hall
  · intro hall
    rw [Model.applyCalls]
    simp only [tqdm, hsel]
    simp only [Bool.false_eq_true, if_false]
    exact meansVarsLoop_trace m x_feats hall

/-- Witness for the amended C4: `nnModel` on a pre-batched stream with a
truthy hint. -/
theorem apply_prebatched_no_reslicing_witness :
    ¬ nnModel.type_ = "mpn" ∧ optTruthy (some 1) = true ∧
    (nnModel.selectedBatches [] demoPrebatched (some 1) = demoPrebatched ∧
    ((∀ b ∈ demoPrebatched, ∃ r, nnModel.get_means b = Except.ok r) →
      nnModel.applyCalls [] demoPrebatched (some 1) none true = demoPrebatched) ∧
    ((∀ b ∈ demoPrebatched, ∃ r, nnModel.get_means_and_vars b = Except.ok r) →
      nnModel.applyCalls [] demoPrebatched (some 1) none false = demoPrebatched)) :=
  ⟨by simp [nnModel, Model.init], rfl,
    apply_prebatched_no_reslicing nnModel [] demoPrebatched (some 1) none
      (by simp [nnModel, Model.init]) rfl⟩

/-- C5: if the batches before `b` succeed and the backend call on batch
`b` raises `e`, `apply` propagates the failure: it returns the error `e`
and no `(means, variances)` pair, the prediction calls stop at `b` (no
batch after `b` is processed), and the partial results of the earlier
batches are not returned.  Stated for both prediction paths. -/
theorem apply_failure_fail_fast {ε α ρ : Type} (m : Model ε α ρ)
    (x_ids x_feats : List (Dyn α)) (batched_size size : Option Nat)
    (pre post : List (Dyn α)) (b : Dyn α) (e : ε)
    (hsel : m.selectedBatches x_ids x_feats batched_size = pre ++ b :: post) :
    ((∀ b' ∈ pre, ∃ r, m.get_means b' = Except.ok r) →
      m.get_means b = Except.error e →
      m.apply x_ids x_feats batched_size size true = Except.error e ∧
      m.applyCalls x_ids x_feats batched_size size true = pre ++ [b]) ∧
    ((∀ b' ∈ pre, ∃ r, m.get_means_and_vars b' = Except.ok r) →
      m.get_means_and_vars b = Except.error e →
      m.apply x_ids x_feats batched_size size false = Except.error e ∧
      m.applyCalls x_ids x_feats batched_size size false = pre ++ [b]) := by
  constructor
  · intro hpre hb
    have hloop := meansLoop_error m e b pre post hpre hb
    constructor
    · rw [Model.apply]
      simp only [tqdm, hsel]
      rw [hloop]
      simp
    · rw [Model.applyCalls]
      simp only [tqdm, hsel]
      rw [hloop]
      simp
  · intro hpre hb
    have hloop := meansVarsLoop_error m e b pre post hpre hb
    constructor
    · rw [Model.apply]
      simp only [tqdm, hsel]
      rw [hloop]
      simp
    · rw [Model.applyCalls]
      simp only [tqdm, hsel]
      rw [hloop]
      simp

/-- A concrete backend that raises (error code 7) on an empty batch and
succeeds on every other batch. -/
def failModel : Model Nat Nat Nat :=
  Model.init "nn"
    (fun d => if d.elems.isEmpty then Except.error 7
      else Except.ok (d.elems.map (fun _ => 0)))
    (fun d => if d.elems.isEmpty then Except.error 7
      else Except.ok (d.elems.map (fun _ => 0), d.elems.map (fun _ => 1))) 2

/-- A pre-batched stream whose second batch makes `failModel` raise. -/
def demoFail : List (Dyn Nat) := [Dyn.seq [Dyn.atom 0], Dyn.seq [], Dyn.seq [Dyn.atom 2]]

/-- Witness for C5: `failModel` raises on the second of three batches;
`apply` returns the error and the third batch is never processed. -/
theorem apply_failure_fail_fast_witness :
    failModel.apply [] demoFail (some 1) none true = Except.error 7 ∧
    failModel.applyCalls [] demoFail (some 1) none true =
      [Dyn.seq [Dyn.atom 0], Dyn.seq []] :=
  (apply_failure_fail_fast failModel [] demoFail (some 1) none
    [Dyn.seq [Dyn.atom 0]] [Dyn.seq [Dyn.atom 2]] (Dyn.seq []) 7 rfl).1
    (fun b' hb' => by
      rw [List.mem_singleton] at hb'
      subst hb'
      exact ⟨[0], rfl⟩)
    rfl

/-- C6: for a backend whose predictions are pure functions of the
individual input (`f` for means, `g` for variances, independent of the
batch grouping), `apply` on an un-pre-batched stream returns element for
element, in the same order, what a single un-batched prediction call on
the whole consumed sequence returns; and the re-batching groups the
stream into consecutive, non-overlapping batches of `test_batch_size`
elements in original order (the i-th batch is the slice at offset
`i * test_batch_size`, the final batch possibly shorter), losslessly. -/
theorem apply_batching_invariance {ε α ρ : Type} (m : Model ε α ρ)
    (x_ids x_feats xs : List (Dyn α)) (size : Option Nat) (f g : Dyn α → ρ)
    (htbs : m.test_batch_size ≠ 0)
    (hxs : xs = if m.type_ = "mpn" then x_ids else x_feats)
    (hGM : ∀ l : List (Dyn α), m.get_means (Dyn.seq l) = Except.ok (l.map f))
    (hGMV : ∀ l : List (Dyn α),
      m.get_means_and_vars (Dyn.seq l) = Except.ok (l.map f, l.map g)) :
    m.apply x_ids x_feats none size true = Except.ok (xs.map f, []) ∧
    m.get_means (Dyn.seq xs) = Except.ok (xs.map f) ∧
    m.apply x_ids x_feats none size false = Except.ok (xs.map f, xs.map g) ∧
    m.get_means_and_vars (Dyn.seq xs) = Except.ok (xs.map f, xs.map g) ∧
    (∀ i : Nat, (batches xs m.test_batch_size)[i]? =
      (if i * m.test_batch_size < xs.length then
        some ((xs.drop (i * m.test_batch_size)).take m.test_batch_size) else none)) ∧
    (batches xs m.test_batch_size).flatten = xs := by
  have hsel : m.selectedBatches x_ids x_feats none =
      (batches xs m.test_batch_size).map Dyn.seq := by
    by_cases hm : m.type_ = "mpn"
    · rw [selectedBatches_mpn m hm, hxs, if_pos hm]
    · rw [selectedBatches_unbatched m hm x_ids x_feats none rfl, hxs, if_neg hm]
  have hmapf : ((batches xs m.test_batch_size).map Dyn.seq).map
      (fun b => b.elems.map f) = (batches xs m.test_batch_size).map (List.map f) := by
    rw [List.map_map]
    rfl
  have hmapg : ((batches xs m.test_batch_size).map Dyn.seq).map
      (fun b => b.elems.map g) = (batches xs m.test_batch_size).map (List.map g) := by
    rw [List.map_map]
    rfl
  refine ⟨?_, hGM xs, ?_, hGMV xs, fun i => batches_getElem? _ htbs xs i,
    batches_flatten _ htbs xs⟩
  · have hall : ∀ b ∈ (batches xs m.test_batch_size).map Dyn.seq,
        m.get_means b = Except.ok (b.elems.map f) := by
      intro b hb
      obtain ⟨c, _, rfl⟩ := List.mem_map.mp hb
      simpa using hGM c
    rw [Model.apply]
    simp only [tqdm, hsel]
    rw [meansLoop_ok m (fun b => b.elems.map f) _ hall]
    simp only [hmapf]
    rw [← List.map_flatten, batches_flatten _ htbs xs]
    simp
  · have hall : ∀ b ∈ (batches xs m.test_batch_size).map Dyn.seq,
        m.get_means_and_vars b = Except.ok (b.elems.map f, b.elems.map g) := by
      intro b hb
      obtain ⟨c, _, rfl⟩ := List.mem_map.mp hb
      simpa using hGMV c
    rw [Model.apply]
    simp only [tqdm, hsel]
    rw [meansVarsLoop_ok m (fun b => b.elems.map f) (fun b => b.elems.map g) _ hall]
    simp only [hmapf, hmapg]
    rw [← List.map_flatten, ← List.map_flatten, batches_flatten _ htbs xs]
    simp

/-- Witness for C6: `nnModel` on a three-input stream, against the single
un-batched call on the whole sequence. -/
theorem apply_batching_invariance_witness :
    nnModel.test_batch_size ≠ 0 ∧
    (nnModel.apply [] demoSingles none none true =
      Except.ok (demoSingles.map (fun _ => 0), []) ∧
    nnModel.get_means (Dyn.seq demoSingles) = Except.ok (demoSingles.map (fun _ => 0)) ∧
    nnModel.apply [] demoSingles none none false =
      Except.ok (demoSingles.map (fun _ => 0), demoSingles.map (fun _ => 1)) ∧
    nnModel.get_means_and_vars (Dyn.seq demoSingles) =
      Except.ok (demoSingles.map (fun _ => 0), demoSingles.map (fun _ => 1)) ∧
    (∀ i : Nat, (batches demoSingles nnModel.test_batch_size)[i]? =
      (if i * nnModel.test_batch_size < demoSingles.length then
        some ((demoSingles.drop (i * nnModel.test_batch_size)).take nnModel.test_batch_size)
        else none)) ∧
    (batches demoSingles nnModel.test_batch_size).flatten = demoSingles) :=
  ⟨by decide,
    apply_batching_invariance nnModel [] demoSingles demoSingles none
      (fun _ => 0) (fun _ => 1) (by decide) rfl (fun l => rfl) (fun l => rfl)⟩

/-- A concrete non-mpn backend with `test_batch_size = 50`, matching the
spec's worked example. -/
def wideModel : Model Unit Nat Nat :=
  Model.init "nn" (fun d => Except.ok (d.elems.map (fun _ => 0)))
    (fun d => Except.ok (d.elems.map (fun _ => 0), d.elems.map (fun _ => 1))) 50

/-- Counterexample to C7 as stated: with a *known* total count of 0 the
code computes no estimate (`size` is tested for truthiness, and `0` is
falsy), while the claim's formula demands `floor(0/50) + 1 = 1`. -/
theorem n_batches_known_zero_cex :
    wideModel.applyProgressTotal none (some 0) = none ∧
    (some 0 : Option Nat) ≠ none ∧
    (none : Option Nat) ≠ some (0 / wideModel.test_batch_size + 1) := by
  refine ⟨rfl, by simp, by simp⟩

/-- C7, amended: whenever `total_count` is known *and nonzero*, the batch
estimate for progress display is `floor(total_count / effective) + 1`,
where the effective batch size is `batched_size` when set to a nonzero
value and not overridden (non-mpn model), and `test_batch_size` otherwise
(unset or zero hint, or mpn override); when `total_count` is unknown — or
zero, which the code treats as unknown — the estimate is unknown.  For
`total_count = 101` and `test_batch_size = 50` the estimate is 3. -/
theorem n_batches_estimate_formula {ε α ρ : Type} (m : Model ε α ρ)
    (batched_size : Option Nat) :
    (∀ n : Nat, n ≠ 0 → ¬ m.type_ = "mpn" → ∀ b : Nat, b ≠ 0 →
      m.applyProgressTotal (some b) (some n) = some (n / b + 1)) ∧
    (∀ n : Nat, n ≠ 0 → optTruthy batched_size = false →
      m.applyProgressTotal batched_size (some n) = some (n / m.test_batch_size + 1)) ∧
    (∀ n : Nat, n ≠ 0 → m.type_ = "mpn" →
      m.applyProgressTotal batched_size (some n) = some (n / m.test_batch_size + 1)) ∧
    m.applyProgressTotal batched_size none = none ∧
    m.applyProgressTotal batched_size (some 0) = none ∧
    (m.test_batch_size = 50 → ¬ m.type_ = "mpn" →
      m.applyProgressTotal none (some 101) = some 3) := by
  refine ⟨?_, ?_, ?_, ?_, ?_, ?_⟩
  · intro n hn hm b hb
    rw [Model.applyProgressTotal, if_neg hm, Model.n_batches]
    simp [hb, hn]
  · intro n hn hbs
    rw [Model.applyProgressTotal, Model.n_batches]
    by_cases hm : m.type_ = "mpn"
    · simp [hm, hn]
    · simp [hm, hbs, hn]
  · intro n hn hm
    rw [Model.applyProgressTotal, if_pos hm, Model.n_batches]
    simp [hn]
  · rw [Model.applyProgressTotal, Model.n_batches]
    by_cases h : optTruthy (if m.type_ = "mpn" then none else batched_size) <;> simp [h]
  · rw [Model.applyProgressTotal, Model.n_batches]
    by_cases h : optTruthy (if m.type_ = "mpn" then none else batched_size) <;> simp [h]
  · intro h50 hm
    rw [Model.applyProgressTotal, if_neg hm, Model.n_batches]
    simp [h50]

/-- Witness for the amended C7: `wideModel` (test_batch_size 50),
including the spec's worked example `floor(101/50) + 1 = 3`. -/
theorem n_batches_estimate_formula_witness :
    wideModel.applyProgressTotal (some 25) (some 101) = some (101 / 25 + 1) ∧
    wideModel.applyProgressTotal none (some 101) = some (101 / wideModel.test_batch_size + 1) ∧
    wideModel.applyProgressTotal none none = none ∧
    wideModel.applyProgressTotal none (some 0) = none ∧
    wideModel.applyProgressTotal none (some 101) = some 3 :=
  ⟨(n_batches_estimate_formula wideModel (some 25)).1 101 (by decide) (by decide) 25 (by decide),
    (n_batches_estimate_formula wideModel none).2.1 101 (by decide) rfl,
    (n_batches_estimate_formula wideModel none).2.2.2.1,
    (n_batches_estimate_formula wideModel none).2.2.2.2.1,
    (n_batches_estimate_formula wideModel none).2.2.2.2.2 rfl (by decide)⟩

/-- C8: the `size` parameter is cosmetic — it flows only into the
progress display's batch-count estimate — so for any model, streams, hint
and mode, two calls of `apply` differing only in `size` return the same
`(means, variances)` outcome and make the same prediction calls. -/
theorem apply_size_cosmetic {ε α ρ : Type} (m : Model ε α ρ)
    (x_ids x_feats : List (Dyn α)) (batched_size size₁ size₂ : Option Nat)
    (mean_only : Bool) :
    m.apply x_ids x_feats batched_size size₁ mean_only =
      m.apply x_ids x_feats batched_size size₂ mean_only ∧
    m.applyCalls x_ids x_feats batched_size size₁ mean_only =
      m.applyCalls x_ids x_feats batched_size size₂ mean_only :=
  ⟨rfl, rfl⟩

/-- C9: a model constructed with a positive `test_batch_size` carries that
positive value unchanged (the constructor stores it and nothing mutates
it), and `apply` relies on it when it re-batches an un-pre-batched stream:
the batches it iterates are exactly `batches xs test_batch_size`, whose
losslessness and nonempty-bounded shape hold because the size is
positive. -/
theorem test_batch_size_invariant {ε α ρ : Type} (type_ : String)
    (gm : Dyn α → Except ε (List ρ)) (gmv : Dyn α → Except ε (List ρ × List ρ))
    (tbs : Nat) (htbs : 0 < tbs) (x_ids x_feats : List (Dyn α)) :
    (Model.init type_ gm gmv tbs).test_batch_size = tbs ∧
    0 < (Model.init type_ gm gmv tbs).test_batch_size ∧
    (Model.init type_ gm gmv tbs).selectedBatches x_ids x_feats none =
      (batches (if type_ = "mpn" then x_ids else x_feats) tbs).map Dyn.seq ∧
    (∀ xs : List (Dyn α), (batches xs tbs).flatten = xs) ∧
    (∀ xs : List (Dyn α), ∀ b ∈ batches xs tbs, b ≠ [] ∧ b.length ≤ tbs) := by
  have hne : tbs ≠ 0 := Nat.pos_iff_ne_zero.mp htbs
  refine ⟨rfl, htbs, ?_, fun xs => batches_flatten _ hne xs, fun xs => batches_mem _ hne xs⟩
  by_cases hm : type_ = "mpn"
  · rw [if_pos hm]
    exact selectedBatches_mpn (Model.init type_ gm gmv tbs) hm x_ids x_feats none
  · rw [if_neg hm]
    exact selectedBatches_unbatched (Model.init type_ gm gmv tbs) hm x_ids x_feats none rfl

/-- Witness for C9: `nnModel`, constructed with `test_batch_size = 2`. -/
theorem test_batch_size_invariant_witness :
    (0 < 2) ∧
    (nnModel.test_batch_size = 2 ∧
    0 < nnModel.test_batch_size ∧
    nnModel.selectedBatches [] demoSingles none =
      (batches (if "nn" = "mpn" then [] else demoSingles) 2).map Dyn.seq ∧
    (∀ xs : List (Dyn Nat), (batches xs 2).flatten = xs) ∧
    (∀ xs : List (Dyn Nat), ∀ b ∈ batches xs 2, b ≠ [] ∧ b.length ≤ 2)) :=
  ⟨by decide,
    test_batch_size_invariant "nn" (fun d => Except.ok (d.elems.map (fun _ => 0)))
      (fun d => Except.ok (d.elems.map (fun _ => 0), d.elems.map (fun _ => 1)))
      2 (by decide) [] demoSingles⟩

/-- C10: for a non-mpn model, `batched_size = 0` behaves exactly as if
the hint were unset, because the driver tests it for truthiness: the
feature stream is re-grouped into batches of `test_batch_size`, the
progress estimate falls back to `test_batch_size`, and the returned
outcome and the prediction calls coincide with the unset-hint call. -/
theorem apply_batched_size_zero_as_unset {ε α ρ : Type} (m : Model ε α ρ)
    (x_ids x_feats : List (Dyn α)) (size : Option Nat) (mean_only : Bool)
    (h : ¬ m.type_ = "mpn") :
    m.apply x_ids x_feats (some 0) size mean_only =
      m.apply x_ids x_feats none size mean_only ∧
    m.applyCalls x_ids x_feats (some 0) size mean_only =
      m.applyCalls x_ids x_feats none size mean_only ∧
    m.selectedBatches x_ids x_feats (some 0) =
      (batches x_feats m.test_batch_size).map Dyn.seq ∧
    m.applyProgressTotal (some 0) size = m.applyProgressTotal none size := by
  have hsel0 : m.selectedBatches x_ids x_feats (some 0) =
      (batches x_feats m.test_batch_size).map Dyn.seq :=
    selectedBatches_unbatched m h x_ids x_feats (some 0) rfl
  have hselN : m.selectedBatches x_ids x_feats none =
      (batches x_feats m.test_batch_size).map Dyn.seq :=
    selectedBatches_unbatched m h x_ids x_feats none rfl
  refine ⟨?_, ?_, hsel0, ?_⟩
  · rw [Model.apply, Model.apply]
    simp only [tqdm, hsel0, hselN]
  · rw [Model.applyCalls, Model.applyCalls]
    simp only [tqdm, hsel0, hselN]
  · rw [Model.applyProgressTotal, Model.applyProgressTotal, if_neg h, if_neg h,
      Model.n_batches, Model.n_batches]
    simp

/-- Witness for C10: `nnModel` on an un-pre-batched stream with
`batched_size = 0` versus unset. -/
theorem apply_batched_size_zero_as_unset_witness :
    ¬ nnModel.type_ = "mpn" ∧
    (nnModel.apply [] demoSingles (some 0) (some 3) true =
      nnModel.apply [] demoSingles none (some 3) true ∧
    nnModel.applyCalls [] demoSingles (some 0) (some 3) true =
      nnModel.applyCalls [] demoSingles none (some 3) true ∧
    nnModel.selectedBatches [] demoSingles (some 0) =
      (batches demoSingles nnModel.test_batch_size).map Dyn.seq ∧
    nnModel.applyProgressTotal (some 0) (some 3) =
      nnModel.applyProgressTotal none (some 3)) :=
  ⟨by simp [nnModel, Model.init],
    apply_batched_size_zero_as_unset nnModel [] demoSingles (some 3) true
      (by simp [nnModel, Model.init])⟩

end Molpal
